import Mathlib

/-!
# Verification of the PYSE core (ZX Spectrum emulator)

Shallow embedding of the emulator core: the 64 KiB memory, the screen
address arithmetic, the keyboard matrix, the IO device bus, the ULA beam /
interrupt / flash state machine, and the .SNA snapshot loader.  Python
integers are modelled as `Nat` (they are non-negative everywhere the core
uses them); Python's `~x` on a non-negative integer is modelled through
`Int.lnot` so that bitwise expressions keep their source form.
-/

set_option maxRecDepth 10000

namespace Pyse

/-! ## Timing constants (module level in the source) -/

def T_STATES_PER_LINE : Nat := 224
def T_STATES_PER_FRAME : Nat := 69888

/-! ## Memory

`Memory.__init__` creates 64 KiB of zeroed RAM and then paints a stripe
pattern into the pixel region `[0x4000, 0x5800)` and alternating colors
into the attribute region `[0x5800, 0x5B00)`.  The two initialization
loops write each address of their region exactly once, at offset
`y * 32 + x`; `memInitRam` is that loop nest in closed form, recovering
`y = offset / 32` and `x = offset % 32`. -/

def memInitRam (a : Nat) : Nat :=
  if 0x4000 ≤ a ∧ a < 0x5800 then
    let y := (a - 0x4000) / 32
    let x := (a - 0x4000) % 32
    if (x + y / 8) &&& 0x07 ≠ 0 then 0xAA else 0x55
  else if 0x5800 ≤ a ∧ a < 0x5B00 then
    let y := (a - 0x5800) / 32
    let x := (a - 0x5800) % 32
    if (x + y) &&& 1 ≠ 0 then 0x45 else 0x16
  else 0

namespace Memory

/-- `Memory.read`: `return self.ram[address]`. -/
def read (ram : Nat → Nat) (address : Nat) : Nat := ram address

/-- `Memory.write`: the source tests `address < 0x4000` but the guarded
branch is `pass` (the early `return` that ignored ROM writes is commented
out, with a TODO asking whether to re-enable it), so the store happens
unconditionally. -/
def write (ram : Nat → Nat) (address value : Nat) : Nat → Nat :=
  fun a => if a = address then value else ram a

end Memory

/-! ## Screen address arithmetic

From `screen_update_full_jit`: the display byte address and the attribute
byte address computed for a screen line `line ∈ [0,191]` and byte column
`col ∈ [0,31]`.  The spec names these `display_address` and
`attribute_address`. -/

def display_address (line col : Nat) : Nat :=
  0x4000 ||| ((line &&& 0xC0) <<< 5) ||| ((line &&& 0x07) <<< 8) |||
    ((line &&& 0x38) <<< 2) ||| (col &&& 0b00011111)

def attribute_address (line col : Nat) : Nat :=
  0x5800 + ((line >>> 3) * 32) + col

/-- Inverse of `display_address` (proof artifact for the bijection claim):
reads the line bits back out of the address layout. -/
def display_address_inv_line (a : Nat) : Nat :=
  (((a >>> 11) &&& 0x03) <<< 6) ||| ((a >>> 8) &&& 0x07) ||| (((a >>> 5) &&& 0x07) <<< 3)

/-- Inverse of `display_address`, column component. -/
def display_address_inv_col (a : Nat) : Nat :=
  a &&& 0x1F

/-! ## Python bitwise helpers

Python integers are unbounded; `~x` is `-(x+1)`.  For non-negative `x`
that is exactly `Int.lnot x`, so an expression such as `x & ~m` becomes
`Int.land x (Int.lnot m)` (a non-negative result, taken back to `Nat`). -/

/-- Python's `x & ~m` for non-negative `x` and `m`. -/
def pyAndNot (x m : Nat) : Nat :=
  (Int.land (x : Int) (Int.lnot (m : Int))).toNat

/-! ## Keyboard

The keyboard row state is `self.rows`, a list of 8 bytes indexed by row
(modelled as a function from row index to byte; rows outside `[0,8)` are
never touched by the source).  `key_map` sends SDL scancodes to
`(row, bit_mask)` pairs; `press`/`release` and `read` below take the
`(row, bit_mask)` pair directly. -/

namespace Keyboard

/-- Fresh keyboard: `self.rows = [0xFF] * 8`. -/
def init : Nat → Nat := fun _ => 0xFF

/-- `Keyboard.press`: `self.rows[row] &= ~bit_mask`. -/
def press (rows : Nat → Nat) (row bit_mask : Nat) : Nat → Nat :=
  fun r => if r = row then pyAndNot (rows row) bit_mask else rows r

/-- `Keyboard.release`: `self.rows[row] |= bit_mask`. -/
def release (rows : Nat → Nat) (row bit_mask : Nat) : Nat → Nat :=
  fun r => if r = row then rows row ||| bit_mask else rows r

/-- `Keyboard.read`: AND together the rows whose bit is clear in the high
byte of the port address, starting from `0xFF`. -/
def read (rows : Nat → Nat) (addr : Nat) : Nat :=
  let high_byte := (addr >>> 8) &&& 0xFF
  (List.range 8).foldl
    (fun result row => if high_byte &&& (1 <<< row) = 0 then result &&& rows row else result)
    0xFF

end Keyboard

/-! ## IO device bus

`IODeviceBus` keeps an ordered list of `(mask, device)` pairs; a device
matches a port address when `((~addr) & mask) == mask`.  The bus is
polymorphic in the device representation here: `readDev`/`writeDev` stand
for the virtual `IODevice.read`/`IODevice.write` calls, and `write`
returns the device list with the single written device replaced by its
updated state. -/

namespace IODeviceBus

/-- The source's match test `((~addr) & mask) == mask`. -/
def matchesPort (mask addr : Nat) : Prop :=
  Int.land (Int.lnot (addr : Int)) (mask : Int) = (mask : Int)

instance (mask addr : Nat) : Decidable (matchesPort mask addr) := by
  unfold matchesPort; infer_instance

/-- `IODeviceBus.read`: first matching device wins; `0xFF` if none. -/
def read {D : Type} (readDev : D → Nat → Nat) :
    List (Nat × D) → Nat → Nat
  | [], _ => 0xFF
  | (mask, device) :: rest, addr =>
    if matchesPort mask addr then readDev device addr
    else read readDev rest addr

/-- `IODeviceBus.write`: the first matching device is written and the loop
returns; later devices are untouched. -/
def write {D : Type} (writeDev : D → Nat → Nat → D) :
    List (Nat × D) → Nat → Nat → List (Nat × D)
  | [], _, _ => []
  | (mask, device) :: rest, addr, value =>
    if matchesPort mask addr then (mask, writeDev device addr value) :: rest
    else (mask, device) :: write writeDev rest addr value

end IODeviceBus

/-! ## ULA beam / interrupt / flash state machine

`ULA.tick` first runs the CPU one T-state, possibly emits a pixel group,
and services the bus transaction; none of that feeds back into the beam
counters, the INT pin, or the flash state, which is all the temporal
claims are about.  `UlaState` therefore carries the counter fields of the
`ULA` object (`line`, `line_cycle`, `flash_flipper`), the `Z80_INT` bit of
the CPU pins as driven by `cpu.interrupt(...)`, and the CRT's `odd_field`
and `flash_inverted` flags; `ULA.tick` below is the counter / interrupt /
flash portion of the source's `tick`. -/

structure UlaState where
  line : Nat
  line_cycle : Nat
  intPin : Bool
  odd_field : Bool
  flash_flipper : Nat
  flash_inverted : Bool
  deriving DecidableEq

namespace ULA

def SCREEN_START_COLUMN : Nat := 6
def BORDER_T_STATES : Nat := SCREEN_START_COLUMN * 4
def FIELD_LINES : Nat := 312
def FLASH_RATE : Nat := 16
def INTERRUPT_DURATION : Nat := 32

/-- Fresh ULA (and fresh CRT): `line = 0`, `line_cycle = 0`,
`flash_flipper = FLASH_RATE`, `odd_field = False`, `flash_inverted =
False`, INT pin released. -/
def init : UlaState :=
  { line := 0, line_cycle := 0, intPin := false,
    odd_field := false, flash_flipper := FLASH_RATE, flash_inverted := false }

/-- One T-state of `ULA.tick` (counter, interrupt and end-of-line /
end-of-field bookkeeping; `cpu.interrupt(True/False)` sets / clears the
INT pin). -/
def tick (s : UlaState) : UlaState :=
  let lc := s.line_cycle + 1
  let ip :=
    if s.line = 0 ∧ lc = BORDER_T_STATES then true
    else if s.line = 0 ∧ lc = BORDER_T_STATES + INTERRUPT_DURATION then false
    else s.intPin
  if lc ≥ T_STATES_PER_LINE then
    let ln := s.line + 1
    if ln ≥ FIELD_LINES then
      let ff := s.flash_flipper - 1
      if ff = 0 then
        { line := 0, line_cycle := 0, intPin := ip,
          odd_field := !s.odd_field, flash_flipper := FLASH_RATE,
          flash_inverted := !s.flash_inverted }
      else
        { line := 0, line_cycle := 0, intPin := ip,
          odd_field := !s.odd_field, flash_flipper := ff,
          flash_inverted := s.flash_inverted }
    else
      { s with line := ln, line_cycle := 0, intPin := ip }
  else
    { s with line_cycle := lc, intPin := ip }

/-- `run n` is the ULA state after `n` T-states from a fresh machine. -/
def run : Nat → UlaState
  | 0 => init
  | n + 1 => tick (run n)

/-- Closed form of `run` (proof artifact): position, interrupt window and
flash state as arithmetic in the tick count. -/
def closedForm (n : Nat) : UlaState :=
  { line := n % 69888 / 224
    line_cycle := n % 69888 % 224
    intPin := decide (24 ≤ n % 69888 ∧ n % 69888 < 56)
    odd_field := decide (n / 69888 % 2 = 1)
    flash_flipper := 16 - n / 69888 % 16
    flash_inverted := decide (n / 69888 / 16 % 2 = 1) }

end ULA

/-! ## Snapshot loader (.SNA)

`System.load_sna` reads the file strictly left to right, so each
`f.read(k)` starts at a fixed offset.  `int.from_bytes(f.read(k),
'little')` on a truncated stream simply drops the missing high bytes,
which is exactly `getD _ 0` on the byte list. -/

/-- `int.from_bytes(f.read(1), 'little')` at offset `i`. -/
def snaByte (data : List Nat) (i : Nat) : Nat := data.getD i 0

/-- `int.from_bytes(f.read(2), 'little')` at offset `i`. -/
def snaWord (data : List Nat) (i : Nat) : Nat :=
  data.getD i 0 + 256 * data.getD (i + 1) 0

/-- Modelled from the spec: the Z80 core's register file.  The registers
live in the vendored C library (`z80.c`, not part of this repository);
§4.2 of the spec specifies plain getters/setters for PC, SP, AF, BC, DE,
HL, IX, IY, the shadow pairs, I, R, IM, IFF1, IFF2, and a
`prefetch(pc)` that makes the next instruction fetch happen from `pc`
(modelled as setting PC). -/
structure Z80Regs where
  pc : Nat
  sp : Nat
  af : Nat
  bc : Nat
  de : Nat
  hl : Nat
  ix : Nat
  iy : Nat
  af_prime : Nat
  bc_prime : Nat
  de_prime : Nat
  hl_prime : Nat
  i : Nat
  r : Nat
  im : Nat
  iff1 : Bool
  iff2 : Bool
  deriving DecidableEq

/-- The slice of `System` state that `load_sna` touches: CPU registers,
the ULA border color, and the 64 KiB RAM. -/
structure SnaSystem where
  regs : Z80Regs
  border_color : Nat
  ram : Nat → Nat

namespace System

/-- `System.load_sna`, returning the mutated system together with
`some errorMessage` when the RAM payload is truncated (Python raises
after the header fields have already been stored). -/
def load_sna (sys : SnaSystem) (data : List Nat) : SnaSystem × Option String :=
  let regs :=
    { sys.regs with
      pc := 0x0072
      i := snaByte data 0
      hl_prime := snaWord data 1
      de_prime := snaWord data 3
      bc_prime := snaWord data 5
      af_prime := snaWord data 7
      hl := snaWord data 9
      de := snaWord data 11
      bc := snaWord data 13
      iy := snaWord data 15
      ix := snaWord data 17
      iff2 := decide (snaByte data 19 &&& 0x04 ≠ 0)
      iff1 := decide (snaByte data 19 &&& 0x04 ≠ 0)
      r := snaByte data 20
      af := snaWord data 21
      sp := snaWord data 23
      im := snaByte data 25 }
  let sys1 :=
    { sys with
      regs := regs
      border_color := (snaByte data 26 &&& 0x07) &&& 0x07 }
  let ram_data := (data.drop 27).take 49152
  if ram_data.length < 49152 then
    (sys1, some "Invalid SNA file: not enough memory data")
  else
    ({ sys1 with
        ram := fun a =>
          if 0x4000 ≤ a ∧ a < 0x10000 then ram_data.getD (a - 0x4000) 0
          else sys.ram a },
      none)

end System

end Pyse

namespace Pyse

/-! ## Theorems — ULA state machine characterization -/

theorem ULA.tick_closedForm (n : Nat) :
    ULA.tick (ULA.closedForm n) = ULA.closedForm (n + 1) := by
  have h69 : n % 69888 < 69888 := Nat.mod_lt _ (by decide)
  simp only [ULA.tick, ULA.closedForm, ULA.BORDER_T_STATES, ULA.SCREEN_START_COLUMN,
    ULA.FIELD_LINES, ULA.FLASH_RATE, ULA.INTERRUPT_DURATION, T_STATES_PER_LINE]
  split_ifs with h1 h2 h3 h4 h2 h3 h4 h2 h3 <;>
    rw [UlaState.mk.injEq] <;>
    refine ⟨by omega, by omega, ?_, ?_, by omega, ?_⟩
  all_goals
    first
      | (rw [decide_eq_decide]; omega)
      | (rw [← decide_not, decide_eq_decide]; omega)
      | (symm; rw [decide_eq_true_eq]; omega)
      | (symm; rw [decide_eq_false_iff_not]; omega)

theorem ULA.run_eq_closedForm (n : Nat) : ULA.run n = ULA.closedForm n := by
  induction n with
  | zero => decide
  | succ n ih =>
    rw [show ULA.run (n + 1) = ULA.tick (ULA.run n) from rfl, ih,
      ULA.tick_closedForm]

/-! ## Theorems — memory and screen addresses -/

/-- C1 counterexample: the claim says a write below `0x4000` is a no-op,
but `Memory.write` stores unconditionally (the ROM guard is disabled in
the source), so writing `0xAA` to `0x0100` changes what `read` returns. -/
theorem c1_rom_write_counterexample :
    ¬ (Memory.read (Memory.write memInitRam 0x0100 0xAA) 0x0100 =
        Memory.read memInitRam 0x0100) := by
  decide

/-- C1 (amended): `Memory.write(a, v)` stores `v` at `a` for every
address, including `a < 0x4000` — the ROM-protection early return is
disabled in this source revision — and changes no other cell: a
subsequent `read(a)` returns `v`, and `read(b)` for `b ≠ a` is
unchanged. -/
theorem c1_write_stores (ram : Nat → Nat) (a v : Nat) :
    Memory.read (Memory.write ram a v) a = v ∧
    ∀ b, b ≠ a → Memory.read (Memory.write ram a v) b = Memory.read ram b := by
  refine ⟨?_, fun b hb => ?_⟩
  · simp [Memory.read, Memory.write]
  · simp [Memory.read, Memory.write, hb]

/-- C1 witness: the amended claim evaluated on the fresh memory at
`0x0100`. -/
theorem c1_write_stores_witness :
    Memory.read (Memory.write memInitRam 0x0100 0xAA) 0x0100 = 0xAA ∧
    Memory.read (Memory.write memInitRam 0x0100 0xAA) 0x0200 =
      Memory.read memInitRam 0x0200 :=
  ⟨(c1_write_stores memInitRam 0x0100 0xAA).1,
   (c1_write_stores memInitRam 0x0100 0xAA).2 0x0200 (by decide)⟩

/-- C2: for every `line ∈ [0,191]` and `col ∈ [0,31]`, the display byte
address equals
`0x4000 ||| ((line &&& 0xC0) <<< 5) ||| ((line &&& 0x07) <<< 8) ||| ((line &&& 0x38) <<< 2) ||| (col &&& 0x1F)`
and lies in `[0x4000, 0x5800)`, and the attribute address equals
`0x5800 + (line >>> 3) * 32 + col` and lies in `[0x5800, 0x5B00)`; in
particular `display_address 0 0 = 0x4000`, `display_address 8 0 =
0x4020`, `display_address 191 31 = 0x57FF`, and `attribute_address 191
31 = 0x5AFF`. -/
theorem c2_screen_addresses :
    (∀ l < 192, ∀ c < 32,
      display_address l c =
        (0x4000 ||| ((l &&& 0xC0) <<< 5) ||| ((l &&& 0x07) <<< 8) |||
          ((l &&& 0x38) <<< 2) ||| (c &&& 0x1F)) ∧
      0x4000 ≤ display_address l c ∧ display_address l c < 0x5800 ∧
      attribute_address l c = 0x5800 + (l >>> 3) * 32 + c ∧
      0x5800 ≤ attribute_address l c ∧ attribute_address l c < 0x5B00) ∧
    display_address 0 0 = 0x4000 ∧
    display_address 8 0 = 0x4020 ∧
    display_address 191 31 = 0x57FF ∧
    attribute_address 191 31 = 0x5AFF := by
  decide

/-- The explicit inverse recovers `(line, col)` from the display address. -/
theorem display_address_left_inverse :
    ∀ l < 192, ∀ c < 32,
      display_address_inv_line (display_address l c) = l ∧
      display_address_inv_col (display_address l c) = c := by
  decide

/-- Every address of the pixel region is hit by the display address map,
at an in-range `(line, col)` produced by the explicit inverse (the region
offset is split as `o = hi * 32 + lo` to keep the enumeration shallow). -/
theorem display_address_right_inverse :
    ∀ hi < 192, ∀ lo < 32,
      display_address_inv_line (0x4000 + (hi * 32 + lo)) < 192 ∧
      display_address_inv_col (0x4000 + (hi * 32 + lo)) < 32 ∧
      display_address (display_address_inv_line (0x4000 + (hi * 32 + lo)))
        (display_address_inv_col (0x4000 + (hi * 32 + lo))) =
        0x4000 + (hi * 32 + lo) := by
  decide

/-- C9: the display-address map is a bijection from
`{0..191} × {0..31}` onto `[0x4000, 0x5800)`: every address in that
interval is the image of exactly one `(line, col)` pair. -/
theorem c9_display_address_bijective (a : Nat) (h1 : 0x4000 ≤ a) (h2 : a < 0x5800) :
    ∃! p : Nat × Nat, p.1 < 192 ∧ p.2 < 32 ∧ display_address p.1 p.2 = a := by
  obtain ⟨hi, lo, rfl, hhi, hlo⟩ :
      ∃ hi lo, a = 0x4000 + (hi * 32 + lo) ∧ hi < 192 ∧ lo < 32 :=
    ⟨(a - 0x4000) / 32, (a - 0x4000) % 32, by omega, by omega, by omega⟩
  obtain ⟨hl, hc, heq⟩ := display_address_right_inverse hi hhi lo hlo
  set o := hi * 32 + lo with ho
  refine ⟨(display_address_inv_line (0x4000 + o),
           display_address_inv_col (0x4000 + o)), ⟨hl, hc, heq⟩, ?_⟩
  rintro ⟨l, c⟩ ⟨hl', hc', heq'⟩
  obtain ⟨el, ec⟩ := display_address_left_inverse l hl' c hc'
  rw [heq'] at el ec
  exact Prod.ext el.symm ec.symm

/-- C9 witness: the bijection claim evaluated at address `0x4800`. -/
theorem c9_display_address_bijective_witness :
    ∃! p : Nat × Nat, p.1 < 192 ∧ p.2 < 32 ∧ display_address p.1 p.2 = 0x4800 :=
  c9_display_address_bijective 0x4800 (by decide) (by decide)

/-! ## Theorems — ULA temporal claims -/

/-- C4: from the fresh ULA state (`line = 0`, `line_cycle = 0`), the INT
pin is asserted after exactly 24 ticks (`line_cycle` reaching
`BORDER_T_STATES = 24`), deasserted after exactly 56 ticks
(`24 + INTERRUPT_DURATION`), and no other tick inside the field changes
the INT pin. -/
theorem c4_interrupt_window :
    (ULA.run 24).intPin = true ∧
    (ULA.run 56).intPin = false ∧
    ∀ n < 69888,
      ((ULA.run (n + 1)).intPin ≠ (ULA.run n).intPin ↔ (n + 1 = 24 ∨ n + 1 = 56)) := by
  refine ⟨by rw [ULA.run_eq_closedForm]; decide,
          by rw [ULA.run_eq_closedForm]; decide,
          fun n hn => ?_⟩
  rw [ULA.run_eq_closedForm, ULA.run_eq_closedForm]
  simp only [ULA.closedForm, ne_eq, decide_eq_decide]
  omega

/-- C4 witness: the change-point characterization applied at tick 23. -/
theorem c4_interrupt_window_witness :
    (ULA.run (23 + 1)).intPin ≠ (ULA.run 23).intPin ↔ (23 + 1 = 24 ∨ 23 + 1 = 56) :=
  c4_interrupt_window.2.2 23 (by decide)

/-- C5: from the fresh ULA, after exactly 69888 ticks the beam is back at
`(line, line_cycle) = (0, 0)` and `odd_field` has toggled exactly once
(it is `true` after 69888 ticks and was `false` at every earlier tick);
and after any `N` ticks, `N % 69888 = line * 224 + line_cycle`. -/
theorem c5_frame_length :
    (ULA.run 69888).line = 0 ∧
    (ULA.run 69888).line_cycle = 0 ∧
    (ULA.run 69888).odd_field = true ∧
    (∀ n < 69888, (ULA.run n).odd_field = false) ∧
    ∀ N : Nat, N % 69888 = (ULA.run N).line * 224 + (ULA.run N).line_cycle := by
  refine ⟨by rw [ULA.run_eq_closedForm]; decide,
          by rw [ULA.run_eq_closedForm]; decide,
          by rw [ULA.run_eq_closedForm]; decide,
          fun n hn => ?_, fun N => ?_⟩
  · rw [ULA.run_eq_closedForm]
    simp only [ULA.closedForm, decide_eq_false_iff_not]
    omega
  · rw [ULA.run_eq_closedForm]
    simp only [ULA.closedForm]
    omega

/-- C5 witness: the mid-field part applied at tick 100. -/
theorem c5_frame_length_witness : (ULA.run 100).odd_field = false :=
  c5_frame_length.2.2.2.1 100 (by decide)

/-- C8: at every field boundary `flash_flipper` decrements, resetting to
`FLASH_RATE = 16` when the decrement reaches 0, which is exactly when
`flash_inverted` toggles; over the stream of field boundaries from a
fresh ULA, `flash_inverted` toggles exactly every 16 frames. -/
theorem c8_flash_period (k : Nat) :
    (ULA.run (69888 * k)).flash_flipper = 16 - k % 16 ∧
    ((ULA.run (69888 * (k + 1))).flash_flipper =
      if (ULA.run (69888 * k)).flash_flipper - 1 = 0 then 16
      else (ULA.run (69888 * k)).flash_flipper - 1) ∧
    ((ULA.run (69888 * (k + 1))).flash_inverted ≠ (ULA.run (69888 * k)).flash_inverted ↔
      (ULA.run (69888 * k)).flash_flipper - 1 = 0) ∧
    ((ULA.run (69888 * (k + 1))).flash_inverted ≠ (ULA.run (69888 * k)).flash_inverted ↔
      (k + 1) % 16 = 0) := by
  simp only [ULA.run_eq_closedForm, ULA.closedForm, ne_eq, decide_eq_decide]
  have h1 : 69888 * k / 69888 = k := by omega
  have h2 : 69888 * (k + 1) / 69888 = k + 1 := by omega
  rw [h1, h2]
  refine ⟨rfl, ?_, by omega, by omega⟩
  split_ifs <;> omega

/-- C8 witness: the 16-frame toggle applied at frame boundary 15. -/
theorem c8_flash_period_witness :
    (ULA.run (69888 * (15 + 1))).flash_inverted ≠
        (ULA.run (69888 * 15)).flash_inverted ↔
      (15 + 1) % 16 = 0 :=
  (c8_flash_period 15).2.2.2

/-! ## Theorems — snapshot loader -/

/-- Reading the copied RAM dump through `take`/`drop` is reading the
original stream at offset `27 + i`. -/
theorem sna_ram_getD (data : List Nat) (i : Nat) (hi : i < 49152) :
    ((data.drop 27).take 49152).getD i 0 = data.getD (27 + i) 0 := by
  rw [List.getD_eq_getElem?_getD, List.getD_eq_getElem?_getD,
    List.getElem?_take, if_pos hi, List.getElem?_drop]

/-- C3: on a 49179-byte .SNA stream, `load_sna` succeeds, sets `PC :=
0x0072` via prefetch, sets `IFF1 = IFF2 = bit 2` of the interrupt byte at
offset 19, sets `IM` from offset 25 and the border color from offset 26
masked with `0x07`, restores I, R and all main and shadow register pairs
little-endian from their offsets, and copies the 49152-byte RAM dump to
`0x4000`–`0xFFFF`; and it reports an invalid-snapshot error on any
stream whose RAM payload is shorter than 49152 bytes. -/
theorem c3_load_sna (sys : SnaSystem) (data : List Nat) (h : data.length = 49179) :
    (System.load_sna sys data).2 = none ∧
    (System.load_sna sys data).1.regs.pc = 0x0072 ∧
    (System.load_sna sys data).1.regs.iff1 = decide (data.getD 19 0 &&& 0x04 ≠ 0) ∧
    (System.load_sna sys data).1.regs.iff2 = decide (data.getD 19 0 &&& 0x04 ≠ 0) ∧
    (System.load_sna sys data).1.regs.im = data.getD 25 0 ∧
    (System.load_sna sys data).1.border_color = data.getD 26 0 &&& 0x07 ∧
    (System.load_sna sys data).1.regs.i = data.getD 0 0 ∧
    (System.load_sna sys data).1.regs.r = data.getD 20 0 ∧
    (System.load_sna sys data).1.regs.hl_prime = data.getD 1 0 + 256 * data.getD 2 0 ∧
    (System.load_sna sys data).1.regs.de_prime = data.getD 3 0 + 256 * data.getD 4 0 ∧
    (System.load_sna sys data).1.regs.bc_prime = data.getD 5 0 + 256 * data.getD 6 0 ∧
    (System.load_sna sys data).1.regs.af_prime = data.getD 7 0 + 256 * data.getD 8 0 ∧
    (System.load_sna sys data).1.regs.hl = data.getD 9 0 + 256 * data.getD 10 0 ∧
    (System.load_sna sys data).1.regs.de = data.getD 11 0 + 256 * data.getD 12 0 ∧
    (System.load_sna sys data).1.regs.bc = data.getD 13 0 + 256 * data.getD 14 0 ∧
    (System.load_sna sys data).1.regs.iy = data.getD 15 0 + 256 * data.getD 16 0 ∧
    (System.load_sna sys data).1.regs.ix = data.getD 17 0 + 256 * data.getD 18 0 ∧
    (System.load_sna sys data).1.regs.af = data.getD 21 0 + 256 * data.getD 22 0 ∧
    (System.load_sna sys data).1.regs.sp = data.getD 23 0 + 256 * data.getD 24 0 ∧
    (∀ a, 0x4000 ≤ a → a < 0x10000 →
      (System.load_sna sys data).1.ram a = data.getD (27 + (a - 0x4000)) 0) ∧
    (∀ sh : List Nat, sh.length < 49179 →
      ((System.load_sna sys sh).2).isSome = true) := by
  have hcond : ¬ (((data.drop 27).take 49152).length < 49152) := by
    rw [List.length_take, List.length_drop, h]; omega
  simp only [System.load_sna, snaByte, snaWord, hcond, if_false, true_and]
  refine ⟨?_, fun a ha1 ha2 => ?_, fun sh hsh => ?_⟩
  · show (data.getD 26 0 &&& 0x07) &&& 0x07 = data.getD 26 0 &&& 0x07
    rw [Nat.and_assoc, show (0x07 : Nat) &&& 0x07 = 0x07 from rfl]
  · rw [if_pos ⟨ha1, ha2⟩, sna_ram_getD _ _ (by omega)]
  · have hc : ((sh.drop 27).take 49152).length < 49152 := by
      rw [List.length_take, List.length_drop]; omega
    simp only [System.load_sna, hc, if_true, Option.isSome_some]

/-- A concrete system state used only to instantiate theorems. -/
def someSystem : SnaSystem :=
  { regs :=
      { pc := 0, sp := 0, af := 0, bc := 0, de := 0, hl := 0, ix := 0, iy := 0,
        af_prime := 0, bc_prime := 0, de_prime := 0, hl_prime := 0,
        i := 0, r := 0, im := 0, iff1 := false, iff2 := false }
    border_color := 0
    ram := memInitRam }

/-- C3 witness: a full-length all-zero snapshot loads without error and
leaves PC at `0x0072`. -/
theorem c3_load_sna_witness :
    (System.load_sna someSystem (List.replicate 49179 0)).2 = none ∧
    (System.load_sna someSystem (List.replicate 49179 0)).1.regs.pc = 0x0072 :=
  ⟨(c3_load_sna someSystem (List.replicate 49179 0) (by rw [List.length_replicate])).1,
   (c3_load_sna someSystem (List.replicate 49179 0) (by rw [List.length_replicate])).2.1⟩

/-- C10: when the 27-byte header is present but the RAM payload is short,
`load_sna` reports the error only after PC, I, R, all register pairs,
IFF1/IFF2, IM and the border color have been updated from the header,
while the memory contents are left unchanged. -/
theorem c10_truncated_load_not_atomic (sys : SnaSystem) (data : List Nat)
    (h27 : 27 ≤ data.length) (hshort : data.length < 49179) :
    ((System.load_sna sys data).2).isSome = true ∧
    (System.load_sna sys data).1.regs.pc = 0x0072 ∧
    (System.load_sna sys data).1.regs.iff1 = decide (data.getD 19 0 &&& 0x04 ≠ 0) ∧
    (System.load_sna sys data).1.regs.iff2 = decide (data.getD 19 0 &&& 0x04 ≠ 0) ∧
    (System.load_sna sys data).1.regs.im = data.getD 25 0 ∧
    (System.load_sna sys data).1.border_color = data.getD 26 0 &&& 0x07 ∧
    (System.load_sna sys data).1.regs.i = data.getD 0 0 ∧
    (System.load_sna sys data).1.regs.r = data.getD 20 0 ∧
    (System.load_sna sys data).1.regs.hl_prime = data.getD 1 0 + 256 * data.getD 2 0 ∧
    (System.load_sna sys data).1.regs.de_prime = data.getD 3 0 + 256 * data.getD 4 0 ∧
    (System.load_sna sys data).1.regs.bc_prime = data.getD 5 0 + 256 * data.getD 6 0 ∧
    (System.load_sna sys data).1.regs.af_prime = data.getD 7 0 + 256 * data.getD 8 0 ∧
    (System.load_sna sys data).1.regs.hl = data.getD 9 0 + 256 * data.getD 10 0 ∧
    (System.load_sna sys data).1.regs.de = data.getD 11 0 + 256 * data.getD 12 0 ∧
    (System.load_sna sys data).1.regs.bc = data.getD 13 0 + 256 * data.getD 14 0 ∧
    (System.load_sna sys data).1.regs.iy = data.getD 15 0 + 256 * data.getD 16 0 ∧
    (System.load_sna sys data).1.regs.ix = data.getD 17 0 + 256 * data.getD 18 0 ∧
    (System.load_sna sys data).1.regs.af = data.getD 21 0 + 256 * data.getD 22 0 ∧
    (System.load_sna sys data).1.regs.sp = data.getD 23 0 + 256 * data.getD 24 0 ∧
    (System.load_sna sys data).1.ram = sys.ram := by
  have hc : ((data.drop 27).take 49152).length < 49152 := by
    rw [List.length_take, List.length_drop]; omega
  simp only [System.load_sna, snaByte, snaWord, hc, if_true, Option.isSome_some,
    true_and, and_true]
  show (data.getD 26 0 &&& 0x07) &&& 0x07 = data.getD 26 0 &&& 0x07
  rw [Nat.and_assoc, show (0x07 : Nat) &&& 0x07 = 0x07 from rfl]

/-! ## Theorems — keyboard matrix -/

/-- `pyAndNot` is bitwise difference. -/
theorem pyAndNot_eq_ldiff (x m : Nat) : pyAndNot x m = Nat.ldiff x m := rfl

theorem pyAndNot_testBit (x m i : Nat) :
    (pyAndNot x m).testBit i = (x.testBit i && !(m.testBit i)) := by
  rw [pyAndNot_eq_ldiff, Nat.testBit_ldiff]

theorem testBit_byte_ones {i : Nat} (h : i < 8) : Nat.testBit 0xFF i = true := by
  interval_cases i <;> rfl

theorem pyAndNot_ff_two : pyAndNot 0xFF 0x02 = 0xFD := by
  apply Nat.eq_of_testBit_eq
  intro i
  rw [pyAndNot_testBit]
  by_cases h : i < 8
  · interval_cases i <;> rfl
  · have h256 : (256 : Nat) ≤ 2 ^ i := by
      calc (256 : Nat) = 2 ^ 8 := by norm_num
        _ ≤ 2 ^ i := Nat.pow_le_pow_right (by norm_num) (by omega)
    have hbound : ∀ x : Nat, x < 256 → Nat.testBit x i = false := fun x hx =>
      Nat.testBit_lt_two_pow (lt_of_lt_of_le hx h256)
    rw [hbound 0xFF (by norm_num), hbound 0xFD (by norm_num)]
    rfl

/-- Bit `i` of the row-masking fold: the accumulator's bit ANDed with the
bit over every row the predicate selects. -/
theorem keyboard_foldl_testBit (rows : Nat → Nat) (P : Nat → Prop) [DecidablePred P]
    (l : List Nat) (acc i : Nat) :
    ((l.foldl (fun result row => if P row then result &&& rows row else result) acc).testBit i)
      = (acc.testBit i && l.all fun r => !decide (P r) || (rows r).testBit i) := by
  induction l generalizing acc with
  | nil => simp
  | cons a t ih =>
    simp only [List.foldl_cons, List.all_cons]
    by_cases h : P a
    · rw [if_pos h, ih, Nat.testBit_and]
      simp [h, Bool.and_assoc]
    · rw [if_neg h, ih]
      simp [h]

/-- Bit `i < 8` of `Keyboard.read` is the AND over the selected rows. -/
theorem keyboard_read_testBit (rows : Nat → Nat) (addr i : Nat) (hi : i < 8) :
    (Keyboard.read rows addr).testBit i = true ↔
      (∀ r < 8, ((addr >>> 8) &&& 0xFF) &&& (1 <<< r) = 0 →
        (rows r).testBit i = true) := by
  simp only [Keyboard.read]
  rw [keyboard_foldl_testBit rows
      (fun row => ((addr >>> 8) &&& 0xFF) &&& (1 <<< row) = 0),
    testBit_byte_ones hi, Bool.true_and]
  simp only [List.all_eq_true, List.mem_range, Bool.or_eq_true,
    Bool.not_eq_true', decide_eq_false_iff_not]
  constructor
  · intro hall r hr hsel
    rcases hall r hr with h | h
    · exact absurd hsel h
    · exact h
  · intro hall r hr
    by_cases hsel : ((addr >>> 8) &&& 0xFF) &&& (1 <<< r) = 0
    · exact Or.inr (hall r hr hsel)
    · exact Or.inl hsel

/-- Pressing one key each in two distinct rows of a fresh keyboard. -/
theorem press_two_rows (r1 r2 b1 b2 : Nat) (hne : r1 ≠ r2) :
    Keyboard.press (Keyboard.press Keyboard.init r1 (1 <<< b1)) r2 (1 <<< b2)
      = fun r => if r = r2 then pyAndNot 0xFF (1 <<< b2)
                 else if r = r1 then pyAndNot 0xFF (1 <<< b1) else 0xFF := by
  funext r
  simp only [Keyboard.press, Keyboard.init]
  by_cases h2 : r = r2
  · rw [if_pos h2, if_pos h2, if_neg (fun h => hne h.symm)]
  · rw [if_neg h2, if_neg h2]

/-- C6: `Keyboard.read` ANDs `0xFF` with every row whose bit is clear in
the high byte of the port address — bit `i` of the result is set exactly
when every selected row has it set; with keys pressed in two distinct
rows both selected by the port, exactly the two corresponding bits are
clear among the low five; and with only Z (row 0, mask `0x02`) pressed,
`read(0xFEFE)` returns `0xFD`. -/
theorem c6_keyboard_read :
    (∀ rows addr i, i < 8 →
      ((Keyboard.read rows addr).testBit i = true ↔
        (∀ r < 8, ((addr >>> 8) &&& 0xFF) &&& (1 <<< r) = 0 →
          (rows r).testBit i = true))) ∧
    (∀ r1 r2 b1 b2 addr, r1 < 8 → r2 < 8 → b1 < 5 → b2 < 5 → r1 ≠ r2 →
      ((addr >>> 8) &&& 0xFF) &&& (1 <<< r1) = 0 →
      ((addr >>> 8) &&& 0xFF) &&& (1 <<< r2) = 0 →
      ∀ i < 5,
        ((Keyboard.read
            (Keyboard.press (Keyboard.press Keyboard.init r1 (1 <<< b1)) r2 (1 <<< b2))
            addr).testBit i = false ↔ (i = b1 ∨ i = b2))) ∧
    Keyboard.read (Keyboard.press Keyboard.init 0 0x02) 0xFEFE = 0xFD := by
  have hbit : ∀ m j, j < 8 → (pyAndNot 0xFF (1 <<< m)).testBit j = (!decide (m = j)) := by
    intro m j hj
    rw [pyAndNot_testBit, testBit_byte_ones hj, Bool.true_and]
    congr 1
    rw [Nat.shiftLeft_eq, one_mul, Nat.testBit_two_pow]
  refine ⟨fun rows addr i hi => keyboard_read_testBit rows addr i hi, ?_, ?_⟩
  · intro r1 r2 b1 b2 addr h1 h2 hb1 hb2 hne hs1 hs2 i hi
    rw [press_two_rows r1 r2 b1 b2 hne, Bool.eq_false_iff, ne_eq,
      keyboard_read_testBit _ addr i (by omega)]
    constructor
    · intro hnall
      by_contra hcon
      push_neg at hcon
      obtain ⟨hib1, hib2⟩ := hcon
      apply hnall
      intro r hr hsel
      by_cases e2 : r = r2
      · rw [if_pos e2, hbit b2 i (by omega)]
        simp [Ne.symm hib2]
      · rw [if_neg e2]
        by_cases e1 : r = r1
        · rw [if_pos e1, hbit b1 i (by omega)]
          simp [Ne.symm hib1]
        · rw [if_neg e1]
          exact testBit_byte_ones (by omega)
    · intro hor hall
      rcases hor with hib | hib
      · have hx := hall r1 h1 hs1
        rw [if_neg hne, if_pos rfl, hbit b1 i (by omega)] at hx
        simp [hib] at hx
      · have hx := hall r2 h2 hs2
        rw [if_pos rfl, hbit b2 i (by omega)] at hx
        simp [hib] at hx
  · have hrow : Keyboard.press Keyboard.init 0 0x02 =
        fun r => if r = 0 then 0xFD else 0xFF := by
      funext r
      simp only [Keyboard.press, Keyboard.init]
      by_cases h : r = 0
      · rw [if_pos h, if_pos h]
        exact pyAndNot_ff_two
      · rw [if_neg h, if_neg h]
    rw [hrow]
    decide

/-- C6 witness: the per-bit characterization applied to the fresh
keyboard at port `0xFEFE`, bit 0. -/
theorem c6_keyboard_read_witness :
    (Keyboard.read Keyboard.init 0xFEFE).testBit 0 = true ↔
      (∀ r < 8, ((0xFEFE >>> 8) &&& 0xFF) &&& (1 <<< r) = 0 →
        (Keyboard.init r).testBit 0 = true) :=
  c6_keyboard_read.1 Keyboard.init 0xFEFE 0 (by decide)

/-! ## Theorems — IO device bus -/

/-- The source's match test `((~addr) & mask) == mask` says exactly that
every bit set in the mask is clear in the address. -/
theorem matchesPort_iff (mask addr : Nat) :
    IODeviceBus.matchesPort mask addr ↔ mask &&& addr = 0 := by
  unfold IODeviceBus.matchesPort
  rw [show Int.land (Int.lnot (addr : Int)) (mask : Int) =
        ((Nat.ldiff mask addr : Nat) : Int) from rfl,
    Int.natCast_inj]
  constructor
  · intro hEq
    apply Nat.eq_of_testBit_eq
    intro i
    have hb := congrArg (fun x => Nat.testBit x i) hEq
    simp only [Nat.testBit_ldiff] at hb
    simp only [Nat.testBit_and, Nat.zero_testBit]
    cases ha : Nat.testBit addr i <;> cases hm : Nat.testBit mask i <;> simp_all
  · intro hz
    apply Nat.eq_of_testBit_eq
    intro i
    have hb := congrArg (fun x => Nat.testBit x i) hz
    simp only [Nat.testBit_and, Nat.zero_testBit] at hb
    simp only [Nat.testBit_ldiff]
    cases ha : Nat.testBit addr i <;> cases hm : Nat.testBit mask i <;> simp_all

/-- C7: `IODeviceBus.read` returns the value of the first device in
insertion order whose mask `m` satisfies `((~a) & m) == m` and `0xFF`
when none matches; `IODeviceBus.write` invokes `write` on exactly the
first matching device, leaves every other entry untouched, and does
nothing when no device matches. -/
theorem c7_io_bus {D : Type} (readDev : D → Nat → Nat) (writeDev : D → Nat → Nat → D)
    (devices : List (Nat × D)) (addr value : Nat) (d₀ : Nat × D) :
    ((∀ p ∈ devices, ¬ IODeviceBus.matchesPort p.1 addr) →
      IODeviceBus.read readDev devices addr = 0xFF ∧
      IODeviceBus.write writeDev devices addr value = devices) ∧
    (∀ k, k < devices.length →
      (∀ j, j < k → ¬ IODeviceBus.matchesPort (devices.getD j d₀).1 addr) →
      IODeviceBus.matchesPort (devices.getD k d₀).1 addr →
      IODeviceBus.read readDev devices addr = readDev (devices.getD k d₀).2 addr ∧
      (IODeviceBus.write writeDev devices addr value).length = devices.length ∧
      (IODeviceBus.write writeDev devices addr value).getD k d₀ =
        ((devices.getD k d₀).1, writeDev (devices.getD k d₀).2 addr value) ∧
      ∀ j, j ≠ k →
        (IODeviceBus.write writeDev devices addr value).getD j d₀ =
          devices.getD j d₀) := by
  induction devices with
  | nil => exact ⟨fun _ => ⟨rfl, rfl⟩, fun k hk => absurd hk (by simp)⟩
  | cons p t ih =>
    obtain ⟨m, d⟩ := p
    constructor
    · intro hno
      have hm : ¬ IODeviceBus.matchesPort m addr := hno (m, d) (List.mem_cons_self _ _)
      have ht := ih.1 (fun q hq => hno q (List.mem_cons_of_mem _ hq))
      refine ⟨?_, ?_⟩
      · simp only [IODeviceBus.read, if_neg hm]
        exact ht.1
      · simp only [IODeviceBus.write, if_neg hm]
        rw [ht.2]
    · intro k hk hbefore hmatch
      cases k with
      | zero =>
        simp only [List.getD_cons_zero] at hmatch
        refine ⟨?_, ?_, ?_, fun j hj => ?_⟩
        · simp only [IODeviceBus.read, if_pos hmatch, List.getD_cons_zero]
        · simp only [IODeviceBus.write, if_pos hmatch, List.length_cons]
        · simp only [IODeviceBus.write, if_pos hmatch, List.getD_cons_zero]
        · obtain ⟨j', rfl⟩ : ∃ j', j = j' + 1 := ⟨j - 1, by omega⟩
          simp only [IODeviceBus.write, if_pos hmatch, List.getD_cons_succ]
      | succ k' =>
        have hm : ¬ IODeviceBus.matchesPort m addr := by
          have h0 := hbefore 0 (by omega)
          simpa using h0
        have hbefore' : ∀ j, j < k' → ¬ IODeviceBus.matchesPort (t.getD j d₀).1 addr := by
          intro j hj
          have hj1 := hbefore (j + 1) (by omega)
          simpa using hj1
        have hmatch' : IODeviceBus.matchesPort (t.getD k' d₀).1 addr := by
          simpa using hmatch
        have hk' : k' < t.length := by
          simp only [List.length_cons] at hk; omega
        obtain ⟨hr, hlen, hgk, hgj⟩ := ih.2 k' hk' hbefore' hmatch'
        refine ⟨?_, ?_, ?_, fun j hj => ?_⟩
        · simp only [IODeviceBus.read, if_neg hm, List.getD_cons_succ]
          exact hr
        · simp only [IODeviceBus.write, if_neg hm, List.length_cons]
          rw [hlen]
        · simp only [IODeviceBus.write, if_neg hm, List.getD_cons_succ]
          exact hgk
        · cases j with
          | zero => simp only [IODeviceBus.write, if_neg hm, List.getD_cons_zero]
          | succ j' =>
            simp only [IODeviceBus.write, if_neg hm, List.getD_cons_succ]
            exact hgj j' (by omega)

/-- C7 witness: on a bus with two devices that both match port `0xFE`,
only the first is read and only the first is written. -/
theorem c7_io_bus_witness :
    IODeviceBus.read (fun (d : Nat) (_ : Nat) => d) [(1, 10), (1, 20)] 0xFE = 10 ∧
    (IODeviceBus.write (fun (d : Nat) (_ _ : Nat) => d + 1)
        [(1, 10), (1, 20)] 0xFE 0).getD 0 (0, 0) = (1, 11) ∧
    (IODeviceBus.write (fun (d : Nat) (_ _ : Nat) => d + 1)
        [(1, 10), (1, 20)] 0xFE 0).getD 1 (0, 0) = (1, 20) := by
  have h := (c7_io_bus (fun (d : Nat) (_ : Nat) => d) (fun (d : Nat) (_ _ : Nat) => d + 1)
      [(1, 10), (1, 20)] 0xFE 0 (0, 0)).2 0 (by decide)
      (fun j hj => absurd hj (by omega))
      ((matchesPort_iff 1 0xFE).mpr (by decide))
  exact ⟨h.1, h.2.2.1, h.2.2.2 1 (by omega)⟩

/-- C10 witness: a header-only (27-byte) stream errors out with the
header applied and the memory untouched. -/
theorem c10_truncated_load_not_atomic_witness :
    ((System.load_sna someSystem (List.replicate 27 0)).2).isSome = true ∧
    (System.load_sna someSystem (List.replicate 27 0)).1.ram = someSystem.ram :=
  ⟨(c10_truncated_load_not_atomic someSystem (List.replicate 27 0)
      (by rw [List.length_replicate]) (by rw [List.length_replicate]; omega)).1,
   (c10_truncated_load_not_atomic someSystem (List.replicate 27 0)
      (by rw [List.length_replicate]) (by rw [List.length_replicate]; omega)).2.2.2.2.2.2.2.2.2.2.2.2.2.2.2.2.2.2.2⟩

end Pyse
